import Mathlib

/-!
Verification of the rlgraph component-graph assembly engine specification
against the repository sources.

The development shallowly embeds the relevant program parts:

* the distribution-adapter graph functions
  (`rlgraph/components/action_adapters/beta_distribution_adapter.py` and
  `rlgraph/components/action_adapters/categorical_distribution_adapter.py`)
  as functions over `ℝ` (real numbers model finite floating-point values;
  finiteness of an output is expressed by explicit numeric bounds);
* the adapters' `get_units_and_shape` hooks over a `Space` record whose
  shape is a list of dimensions;
* the structured op container (flatten/unflatten) and the build/compile
  engine, which are not part of the given sources, modelled from the spec;
* the `Layer` component of `yarl/components/layers/layer.py`.
-/

namespace RLGraph

/-! ## Definitions -/

/-! ### Small-number epsilon

Modelled from the spec: `SMALL_NUMBER` is "a fixed small-number epsilon"
("a small positive constant") used to defensively clamp numeric values;
its defining module (`rlgraph/utils/util.py`) is not among the given
sources.  rlgraph sets it to `1e-6`. -/

/-- Modelled from the spec: the fixed small positive epsilon `SMALL_NUMBER`
(set to `1e-6`), shared by the adapters' clamping steps. -/
noncomputable def SMALL_NUMBER : ℝ := 1 / 1000000

/-! ### Beta distribution adapter
(`beta_distribution_adapter.py`, `_graph_fn_get_parameters_from_adapter_outputs`) -/

/-- `tf.clip_by_value(x, lo, hi)`: clip `x` into the interval `[lo, hi]`
(elementwise on tensors). -/
noncomputable def clip_by_value (x lo hi : ℝ) : ℝ := min (max x lo) hi

/-- One elementwise step of the beta adapter's stabilization
(`beta_distribution_adapter.py` lines 51-54): clip the raw adapter output to
`[log SMALL_NUMBER, -log SMALL_NUMBER]`, then map through
`x ↦ log (exp x + 1) + 1`. -/
noncomputable def betaStabilize (x : ℝ) : ℝ :=
  Real.log (Real.exp (clip_by_value x (Real.log SMALL_NUMBER) (-Real.log SMALL_NUMBER)) + 1) + 1

/-- The argument handed to `tf.math.log` in the beta adapter:
`exp (clipped value) + 1`. -/
noncomputable def betaLogArgument (x : ℝ) : ℝ :=
  Real.exp (clip_by_value x (Real.log SMALL_NUMBER) (-Real.log SMALL_NUMBER)) + 1

/-- `BetaDistributionAdapter._graph_fn_get_parameters_from_adapter_outputs`:
the adapter output (one flat row of width `m + m`) is stabilized
elementwise and split in the middle into the `alpha` and `beta` halves; the
graph function returns the triple
`(DataOpTuple([alpha, beta]), None, None)`. -/
noncomputable def betaGraphFn {m : ℕ} (adapter_outputs : Fin (m + m) → ℝ) :
    ((Fin m → ℝ) × (Fin m → ℝ)) × Option (Fin (m + m) → ℝ) × Option (Fin (m + m) → ℝ) :=
  let parameters := fun i => betaStabilize (adapter_outputs i)
  let alpha := fun i : Fin m => parameters (Fin.castAdd m i)
  let beta := fun i : Fin m => parameters (Fin.natAdd m i)
  ((alpha, beta), none, none)

/-! ### Categorical distribution adapter
(`categorical_distribution_adapter.py`, `_graph_fn_get_parameters_from_adapter_outputs`) -/

/-- `tf.nn.softmax` along the last axis: `softmax x i = exp (x i) / Σ j, exp (x j)`. -/
noncomputable def softmax {n : ℕ} (x : Fin n → ℝ) (i : Fin n) : ℝ :=
  Real.exp (x i) / ∑ j, Real.exp (x j)

/-- The categorical adapter's clamped probabilities
(`categorical_distribution_adapter.py` line 59):
`tf.maximum(tf.nn.softmax(logits), SMALL_NUMBER)`. -/
noncomputable def categoricalProbs {n : ℕ} (x : Fin n → ℝ) (i : Fin n) : ℝ :=
  max (softmax x i) SMALL_NUMBER

/-- `CategoricalDistributionAdapter._graph_fn_get_parameters_from_adapter_outputs`:
returns the triple (raw logits as parameters, clamped softmax
probabilities, their logarithms). -/
noncomputable def categoricalGraphFn {n : ℕ} (adapter_outputs : Fin n → ℝ) :
    (Fin n → ℝ) × Option (Fin n → ℝ) × Option (Fin n → ℝ) :=
  let parameters := adapter_outputs
  let probs := categoricalProbs adapter_outputs
  let log_probs := fun i => Real.log (probs i)
  (parameters, some probs, some log_probs)

/-! ### Action spaces and the `get_units_and_shape` hooks -/

/-- Modelled from the spec: a `Space` describes the shape and (optional
categorical) semantics of a value flowing through the graph; `shape` is the
tuple of dimensions and `numCategories` the category count of a discrete
space (the `Space` class itself is not among the given sources). -/
structure Space where
  shape : List ℕ
  numCategories : ℕ

/-- Modelled from the spec: `Space.flat_dim`, the flat output width of the
space, is the product of the shape's dimensions. -/
def Space.flatDim (s : Space) : ℕ := s.shape.prod

/-- Modelled from the spec: `Space.flat_dim_with_categories`: the flat width
with the category rank included. -/
def Space.flatDimWithCategories (s : Space) : ℕ := s.shape.prod * s.numCategories

/-- Modelled from the spec: `Space.get_shape(with_category_rank=True)`
appends the category count as one extra trailing dimension. -/
def Space.getShapeWithCategoryRank (s : Space) : List ℕ := s.shape ++ [s.numCategories]

/-- `BetaDistributionAdapter.get_units_and_shape`
(`beta_distribution_adapter.py` lines 34-41): `units = 2 * flat_dim`; the
shape is `(2,)` for a scalar action space, otherwise the action-space shape
with its last dimension doubled. -/
def beta_get_units_and_shape (s : Space) : ℕ × List ℕ :=
  let units := 2 * s.flatDim
  let new_shape :=
    match s.shape with
    | [] => [2]
    | a :: rest => (a :: rest).dropLast ++ [(a :: rest).getLast (List.cons_ne_nil a rest) * 2]
  (units, new_shape)

/-- `CategoricalDistributionAdapter.get_units_and_shape`
(`categorical_distribution_adapter.py` lines 39-42). -/
def categorical_get_units_and_shape (s : Space) : ℕ × List ℕ :=
  (s.flatDimWithCategories, s.getShapeWithCategoryRank)

/-! ### The build/compile engine

The engine itself (component tree, API-method recorder, build phase) is not
among the given sources — only its test drivers are — so it is modelled
from the spec (§2, §4.4): the recorder captures an API method's body as a
call graph over the root component's external inputs and the sub-components'
graph functions; `build` materializes one backend operation per call-graph
node and registers the root API method as a single executable entry point;
building an already-`BUILT` component is a no-op.  Scalar float values are
modelled as rationals (the tested literals are exact decimals). -/

/-- Modelled from the spec: a 1-to-1 sub-component — a scoped component
whose single API method `run` wraps the graph function `fn`. -/
structure Comp1 where
  scope : String
  fn : ℚ → ℚ

/-- Modelled from the spec: a 2-to-1 sub-component. -/
structure Comp2 where
  scope : String
  fn : ℚ → ℚ → ℚ

/-- Modelled from the spec: the call graph recorded by tracing a root API
method — external inputs (by position) and ordered calls into
sub-component `run` methods. -/
inductive CallGraph where
  | input (i : ℕ)
  | call1 (c : Comp1) (arg : CallGraph)
  | call2 (c : Comp2) (arg1 arg2 : CallGraph)

/-- Modelled from the spec: executing a materialized call graph on external
input values (callees before callers). -/
def evalCallGraph : CallGraph → (ℕ → ℚ) → ℚ
  | .input i, inputs => inputs i
  | .call1 c a, inputs => c.fn (evalCallGraph a inputs)
  | .call2 c a b, inputs => c.fn (evalCallGraph a inputs) (evalCallGraph b inputs)

/-- Modelled from the spec: the number of backend leaf operations
materialized for a call graph (one per node). -/
def countOps : CallGraph → ℕ
  | .input _ => 1
  | .call1 _ a => countOps a + 1
  | .call2 _ a b => countOps a + countOps b + 1

/-- Modelled from the spec: a root component with one recorded API method;
`built`, the registered entry point and the number of backend operations
created so far make up the build state. -/
structure RootComponent where
  graph : CallGraph
  built : Bool
  entryPoint : Option ((ℕ → ℚ) → ℚ)
  opCount : ℕ

/-- Modelled from the spec: a freshly declared (unbuilt) root component. -/
def mkRoot (g : CallGraph) : RootComponent :=
  { graph := g, built := false, entryPoint := none, opCount := 0 }

/-- Modelled from the spec (§4.4): the build pass — materialize one backend
operation per call-graph node and register the single entry point; if the
component is already `BUILT`, return it unchanged (no new operations, same
entry point, nothing raised). -/
def build (r : RootComponent) : RootComponent :=
  if r.built then r
  else
    { r with
      built := true
      entryPoint := some (evalCallGraph r.graph)
      opCount := r.opCount + countOps r.graph }

/-- Modelled from the spec/tests: `Dummy1To1` — a 1-to-1 component whose
graph function adds the constant `1.0` to its input. -/
def dummy1To1 (scope : String) : Comp1 := ⟨scope, fun x => x + 1⟩

/-- Modelled from the spec/tests: `Dummy2To1` — a 2-to-1 component whose
graph function sums its two inputs. -/
def dummy2To1 (scope : String) : Comp2 := ⟨scope, fun a b => a + b⟩

/-- The call graph recorded for `test_connecting_two_1to1_components`:
`run(input_) = comp2.run(comp1.run(input_))`. -/
def chainGraph (c1 c2 : Comp1) : CallGraph :=
  .call1 c2 (.call1 c1 (.input 0))

/-- The call graph recorded for `test_diamond_4x_sub_component_setup`:
`run(in1, in2) = D.run(B.run(A.run(in1)), C.run(A.run(in2)))`. -/
def diamondGraph (a b c : Comp1) (d : Comp2) : CallGraph :=
  .call2 d (.call1 b (.call1 a (.input 0))) (.call1 c (.call1 a (.input 1)))

/-- The external-input assignment for a two-input entry point. -/
def twoInputs (x y : ℚ) : ℕ → ℚ
  | 0 => x
  | _ => y

/-! ### Layers (`yarl/components/layers/layer.py`) -/

/-- Modelled from the spec (§4.2): the descriptor registered by
`define_api_method(name, body, flatten_ops=…, split_ops=…)`; the body is a
graph function over the (structured) inputs, modelled as a list of scalars. -/
structure ApiMethodDescriptor where
  name : String
  body : List ℚ → List ℚ
  flatten_ops : Bool
  split_ops : Bool

/-- Modelled from the spec: the registration state of a component —
its scope and the ordered table of registered API-method descriptors
(the `Component` base class is not among the given sources). -/
structure ComponentModel where
  scope : String
  apiMethods : List ApiMethodDescriptor

/-- Modelled from the spec (§4.2): `define_api_method` registers a
descriptor without executing the body. -/
def ComponentModel.define_api_method (c : ComponentModel) (name : String)
    (body : List ℚ → List ℚ) (flatten_ops split_ops : Bool) : ComponentModel :=
  { c with apiMethods := c.apiMethods ++ [⟨name, body, flatten_ops, split_ops⟩] }

/-- `Layer._graph_fn_apply` (`layer.py` lines 78-88): the base class returns
its input tuple unchanged. -/
def Layer.graph_fn_apply (inputs : List ℚ) : List ℚ := inputs

/-- `Layer.__init__` (`layer.py` lines 30-47): construct the component under
the given scope (default `"layer"`) and register the API method `"apply"`
backed by `_graph_fn_apply` with `flatten_ops=True, split_ops=True`. -/
def Layer.init (scope : String := "layer") : ComponentModel :=
  ComponentModel.define_api_method ⟨scope, []⟩ "apply" Layer.graph_fn_apply true true

/-! ### Structured op containers (flatten / unflatten)

Modelled from the spec (§3, §6): the structured op container is "a tree
whose leaves are backend operations/values and whose internal nodes are
ordered mappings or fixed-arity tuples"; `flatten` turns a container into a
leaf-keyed mapping whose keys are stable strings derived from the tree
path, and `unflatten(mapping, template)` rebuilds the container.  The
implementing module is not among the given sources. -/

/-- Modelled from the spec: one segment of a flatten key — a mapping key or
a tuple position. -/
inductive FlatKey where
  | dictKey (k : String)
  | tupleIdx (i : ℕ)
deriving DecidableEq

/-- A flatten key as a structured tree path (rendered to a string by
`renderPath`). -/
abbrev FlatPath := List FlatKey

mutual

/-- Modelled from the spec: a structured op container — a leaf value, an
ordered mapping, or a tuple. -/
inductive DataOp (α : Type) where
  | leaf (v : α)
  | dict (entries : DictEntries α)
  | tup (items : TupleItems α)

/-- The ordered entries of a mapping node. -/
inductive DictEntries (α : Type) where
  | nil
  | cons (key : String) (child : DataOp α) (rest : DictEntries α)

/-- The ordered items of a tuple node. -/
inductive TupleItems (α : Type) where
  | nil
  | cons (child : DataOp α) (rest : TupleItems α)

end

/-- Prefix one key segment onto a flattened entry. -/
def prependKey {α : Type} (s : FlatKey) (e : FlatPath × α) : FlatPath × α :=
  (s :: e.1, e.2)

mutual

/-- Modelled from the spec: deterministic flatten of a container into the
leaf-keyed mapping, keys derived from the tree path (tuple items are keyed
by position, as in the source's index-derived keys). -/
def flatten {α : Type} : DataOp α → List (FlatPath × α)
  | .leaf v => [([], v)]
  | .dict es => flattenD es
  | .tup ts => flattenT 0 ts

/-- Flatten of mapping entries. -/
def flattenD {α : Type} : DictEntries α → List (FlatPath × α)
  | .nil => []
  | .cons k c rest => (flatten c).map (prependKey (.dictKey k)) ++ flattenD rest

/-- Flatten of tuple items, starting at the given position. -/
def flattenT {α : Type} : ℕ → TupleItems α → List (FlatPath × α)
  | _, .nil => []
  | i, .cons c rest => (flatten c).map (prependKey (.tupleIdx i)) ++ flattenT (i + 1) rest

end

mutual

/-- The structural template of a container (leaf values erased), handed to
`unflatten` to rebuild the tree shape. -/
def template {α : Type} : DataOp α → DataOp Unit
  | .leaf _ => .leaf ()
  | .dict es => .dict (templateD es)
  | .tup ts => .tup (templateT ts)

/-- Template of mapping entries. -/
def templateD {α : Type} : DictEntries α → DictEntries Unit
  | .nil => .nil
  | .cons k c rest => .cons k (template c) (templateD rest)

/-- Template of tuple items. -/
def templateT {α : Type} : TupleItems α → TupleItems Unit
  | .nil => .nil
  | .cons c rest => .cons (template c) (templateT rest)

end

/-- Restrict a leaf-keyed mapping to the entries under one first key
segment, dropping that segment. -/
def subMap {α : Type} (s : FlatKey) (m : List (FlatPath × α)) : List (FlatPath × α) :=
  m.filterMap fun e =>
    match e.1 with
    | [] => none
    | k :: rest => if k = s then some (rest, e.2) else none

/-- Look a full path up in a leaf-keyed mapping (first match). -/
def lookupPath {α : Type} (p : FlatPath) : List (FlatPath × α) → Option α
  | [] => none
  | e :: rest => if e.1 = p then some e.2 else lookupPath p rest

mutual

/-- Modelled from the spec: `unflatten(mapping, template)` — rebuild the
container of the template's shape, looking each leaf up in the mapping
under its tree-path key; `none` when a key is missing. -/
def unflatten {α : Type} (m : List (FlatPath × α)) : DataOp Unit → Option (DataOp α)
  | .leaf _ => (lookupPath [] m).map DataOp.leaf
  | .dict tes => (unflattenD m tes).map DataOp.dict
  | .tup tts => (unflattenT m 0 tts).map DataOp.tup

/-- Unflatten of mapping entries. -/
def unflattenD {α : Type} (m : List (FlatPath × α)) : DictEntries Unit → Option (DictEntries α)
  | .nil => some .nil
  | .cons k tc trest =>
    match unflatten (subMap (.dictKey k) m) tc, unflattenD m trest with
    | some c, some rest => some (.cons k c rest)
    | _, _ => none

/-- Unflatten of tuple items, starting at the given position. -/
def unflattenT {α : Type} (m : List (FlatPath × α)) : ℕ → TupleItems Unit → Option (TupleItems α)
  | _, .nil => some .nil
  | i, .cons tc trest =>
    match unflatten (subMap (.tupleIdx i) m) tc, unflattenT m (i + 1) trest with
    | some c, some rest => some (.cons c rest)
    | _, _ => none

end

/-- The keys of a mapping node, in order. -/
def keysD {α : Type} : DictEntries α → List String
  | .nil => []
  | .cons k _ rest => k :: keysD rest

/-- Membership test on key lists. -/
def memKey (k : String) : List String → Bool
  | [] => false
  | k1 :: rest => k == k1 || memKey k rest

/-- Pairwise distinctness of a key list. -/
def dupFree : List String → Bool
  | [] => true
  | k :: rest => !memKey k rest && dupFree rest

mutual

/-- Well-formedness of a container: every mapping node has pairwise
distinct keys (Python dict keys are unique). -/
def wf {α : Type} : DataOp α → Bool
  | .leaf _ => true
  | .dict es => dupFree (keysD es) && wfD es
  | .tup ts => wfT ts

/-- Well-formedness of mapping entries. -/
def wfD {α : Type} : DictEntries α → Bool
  | .nil => true
  | .cons _ c rest => wf c && wfD rest

/-- Well-formedness of tuple items. -/
def wfT {α : Type} : TupleItems α → Bool
  | .nil => true
  | .cons c rest => wf c && wfT rest

end

mutual

/-- The tree paths of a container's leaves, in traversal order. -/
def leafPaths {α : Type} : DataOp α → List FlatPath
  | .leaf _ => [[]]
  | .dict es => leafPathsD es
  | .tup ts => leafPathsT 0 ts

/-- Leaf paths below mapping entries. -/
def leafPathsD {α : Type} : DictEntries α → List FlatPath
  | .nil => []
  | .cons k c rest => (leafPaths c).map (fun p => FlatKey.dictKey k :: p) ++ leafPathsD rest

/-- Leaf paths below tuple items, starting at the given position. -/
def leafPathsT {α : Type} : ℕ → TupleItems α → List FlatPath
  | _, .nil => []
  | i, .cons c rest => (leafPaths c).map (fun p => FlatKey.tupleIdx i :: p) ++ leafPathsT (i + 1) rest

end

/-- Modelled from the spec: the string rendering of one key segment (tuple
positions are rendered with an index-derived marker, as in the source). -/
def renderKey : FlatKey → String
  | .dictKey k => k
  | .tupleIdx i => "_T" ++ toString i ++ "_"

/-- Modelled from the spec: the stable string key derived from a tree path. -/
def renderPath (p : FlatPath) : String :=
  String.join (p.map (fun s => "/" ++ renderKey s))

/-- The string-keyed flatten mapping exposed to graph-function authors. -/
def flattenStr {α : Type} (c : DataOp α) : List (String × α) :=
  (flatten c).map (fun e => (renderPath e.1, e.2))

/-- The mapping `m` carries, under each key of the entry list, exactly the
flattened subtree of the corresponding child. -/
def AgreeD {α : Type} (m : List (FlatPath × α)) : DictEntries α → Prop
  | .nil => True
  | .cons k c rest => subMap (.dictKey k) m = flatten c ∧ AgreeD m rest

/-- The mapping `m` carries, under each position from `i` on, exactly the
flattened subtree of the corresponding tuple item. -/
def AgreeT {α : Type} (m : List (FlatPath × α)) : ℕ → TupleItems α → Prop
  | _, .nil => True
  | i, .cons c rest => subMap (.tupleIdx i) m = flatten c ∧ AgreeT m (i + 1) rest

/-- A concrete structured container: a mapping with a scalar leaf and a
tuple holding a leaf and a nested mapping. -/
def sampleContainer : DataOp ℕ :=
  .dict (.cons "a" (.leaf 1)
    (.cons "b"
      (.tup (.cons (.leaf 2) (.cons (.dict (.cons "c" (.leaf 3) .nil)) .nil)))
      .nil))

end RLGraph

/-! ## Theorems -/

namespace RLGraph

theorem SMALL_NUMBER_pos : 0 < SMALL_NUMBER := by norm_num [SMALL_NUMBER]

theorem SMALL_NUMBER_lt_one : SMALL_NUMBER < 1 := by norm_num [SMALL_NUMBER]

theorem clip_le_neg_log (x : ℝ) :
    clip_by_value x (Real.log SMALL_NUMBER) (-Real.log SMALL_NUMBER) ≤ -Real.log SMALL_NUMBER :=
  min_le_right _ _

theorem betaLogArgument_pos (x : ℝ) : 0 < betaLogArgument x := by
  have h := Real.exp_pos (clip_by_value x (Real.log SMALL_NUMBER) (-Real.log SMALL_NUMBER))
  unfold betaLogArgument
  linarith

theorem one_lt_betaStabilize (x : ℝ) : 1 < betaStabilize x := by
  have h := Real.exp_pos (clip_by_value x (Real.log SMALL_NUMBER) (-Real.log SMALL_NUMBER))
  have hlog : 0 < Real.log (Real.exp (clip_by_value x (Real.log SMALL_NUMBER)
      (-Real.log SMALL_NUMBER)) + 1) := Real.log_pos (by linarith)
  unfold betaStabilize
  linarith

theorem betaStabilize_le (x : ℝ) :
    betaStabilize x ≤ Real.log (1 / SMALL_NUMBER + 1) + 1 := by
  have hc := clip_le_neg_log x
  have hexp : Real.exp (clip_by_value x (Real.log SMALL_NUMBER) (-Real.log SMALL_NUMBER))
      ≤ 1 / SMALL_NUMBER := by
    calc Real.exp (clip_by_value x (Real.log SMALL_NUMBER) (-Real.log SMALL_NUMBER))
        ≤ Real.exp (-Real.log SMALL_NUMBER) := Real.exp_le_exp.mpr hc
      _ = (Real.exp (Real.log SMALL_NUMBER))⁻¹ := Real.exp_neg _
      _ = SMALL_NUMBER⁻¹ := by rw [Real.exp_log SMALL_NUMBER_pos]
      _ = 1 / SMALL_NUMBER := (one_div SMALL_NUMBER).symm
  have hpos := Real.exp_pos (clip_by_value x (Real.log SMALL_NUMBER) (-Real.log SMALL_NUMBER))
  have hlog : Real.log (Real.exp (clip_by_value x (Real.log SMALL_NUMBER)
      (-Real.log SMALL_NUMBER)) + 1) ≤ Real.log (1 / SMALL_NUMBER + 1) := by
    apply Real.log_le_log (by linarith)
    linarith
  unfold betaStabilize
  linarith

theorem softmax_le_one {n : ℕ} (x : Fin n → ℝ) (i : Fin n) : softmax x i ≤ 1 := by
  have hterm : Real.exp (x i) ≤ ∑ j, Real.exp (x j) :=
    Finset.single_le_sum (fun j _ => (Real.exp_pos (x j)).le) (Finset.mem_univ i)
  have hsum : 0 < ∑ j, Real.exp (x j) :=
    lt_of_lt_of_le (Real.exp_pos (x i)) hterm
  exact (div_le_one hsum).mpr hterm

theorem categoricalProbs_lower {n : ℕ} (x : Fin n → ℝ) (i : Fin n) :
    SMALL_NUMBER ≤ categoricalProbs x i := le_max_right _ _

theorem categoricalProbs_le_one {n : ℕ} (x : Fin n → ℝ) (i : Fin n) :
    categoricalProbs x i ≤ 1 :=
  max_le (softmax_le_one x i) SMALL_NUMBER_lt_one.le

theorem prod_dropLast_getLast_mul_two (a : ℕ) (rest : List ℕ) :
    ((a :: rest).dropLast ++ [(a :: rest).getLast (List.cons_ne_nil a rest) * 2]).prod
      = 2 * (a :: rest).prod := by
  rw [List.prod_append, List.prod_singleton]
  conv_rhs => rw [← List.dropLast_append_getLast (List.cons_ne_nil a rest)]
  rw [List.prod_append, List.prod_singleton]
  ring

theorem subMap_append {α : Type} (s : FlatKey) (l m : List (FlatPath × α)) :
    subMap s (l ++ m) = subMap s l ++ subMap s m := by
  simp [subMap, List.filterMap_append]

theorem subMap_map_prependKey_same {α : Type} (s : FlatKey) (l : List (FlatPath × α)) :
    subMap s (l.map (prependKey s)) = l := by
  induction l with
  | nil => rfl
  | cons e l ih =>
    simpa [subMap, prependKey, List.filterMap_cons] using ih

theorem subMap_map_prependKey_ne {α : Type} {s t : FlatKey} (h : t ≠ s)
    (l : List (FlatPath × α)) : subMap s (l.map (prependKey t)) = [] := by
  induction l with
  | nil => rfl
  | cons e l ih =>
    simp only [subMap, prependKey, List.map_cons, List.filterMap_cons, h, if_neg]
    exact ih

theorem subMap_flattenD_notMem {α : Type} :
    ∀ (es : DictEntries α) (k : String), memKey k (keysD es) = false →
      subMap (FlatKey.dictKey k) (flattenD es) = []
  | .nil, _, _ => rfl
  | .cons k1 c rest, k, h => by
    have h1 : ¬k = k1 ∧ memKey k (keysD rest) = false := by
      simpa [memKey, keysD] using h
    have hne : FlatKey.dictKey k1 ≠ FlatKey.dictKey k := by
      simp only [ne_eq, FlatKey.dictKey.injEq]
      exact fun he => h1.1 he.symm
    rw [flattenD, subMap_append, subMap_map_prependKey_ne hne,
      subMap_flattenD_notMem rest k h1.2]
    rfl

theorem subMap_flattenT_lt {α : Type} :
    ∀ (ts : TupleItems α) (i j : ℕ), j < i →
      subMap (FlatKey.tupleIdx j) (flattenT i ts) = []
  | .nil, _, _, _ => rfl
  | .cons c rest, i, j, h => by
    have hne : FlatKey.tupleIdx i ≠ FlatKey.tupleIdx j := by
      simp only [ne_eq, FlatKey.tupleIdx.injEq]
      omega
    rw [flattenT, subMap_append, subMap_map_prependKey_ne hne,
      subMap_flattenT_lt rest (i + 1) j (by omega)]
    rfl

theorem agreeD_append {α : Type} :
    ∀ (es : DictEntries α) (l m : List (FlatPath × α)),
      (∀ k, memKey k (keysD es) = true → subMap (FlatKey.dictKey k) l = []) →
      AgreeD m es → AgreeD (l ++ m) es
  | .nil, _, _, _, _ => trivial
  | .cons k c rest, l, m, hl, hm => by
    refine ⟨?_, ?_⟩
    · rw [subMap_append, hl k (by simp [memKey, keysD]), hm.1, List.nil_append]
    · exact agreeD_append rest l m (fun k1 h1 => hl k1 (by simp [memKey, keysD, h1])) hm.2

theorem agreeT_append {α : Type} :
    ∀ (ts : TupleItems α) (i : ℕ) (l m : List (FlatPath × α)),
      (∀ j, i ≤ j → subMap (FlatKey.tupleIdx j) l = []) →
      AgreeT m i ts → AgreeT (l ++ m) i ts
  | .nil, _, _, _, _, _ => trivial
  | .cons c rest, i, l, m, hl, hm => by
    refine ⟨?_, ?_⟩
    · rw [subMap_append, hl i le_rfl, hm.1, List.nil_append]
    · exact agreeT_append rest (i + 1) l m (fun j hj => hl j (by omega)) hm.2

theorem agreeD_flattenD {α : Type} :
    ∀ (es : DictEntries α), dupFree (keysD es) = true → AgreeD (flattenD es) es
  | .nil, _ => trivial
  | .cons k c rest, h => by
    have h1 : memKey k (keysD rest) = false ∧ dupFree (keysD rest) = true := by
      simpa [dupFree, keysD] using h
    refine ⟨?_, ?_⟩
    · rw [flattenD, subMap_append, subMap_map_prependKey_same,
        subMap_flattenD_notMem rest k h1.1, List.append_nil]
    · rw [flattenD]
      refine agreeD_append rest _ _ ?_ (agreeD_flattenD rest h1.2)
      intro k1 hk1
      apply subMap_map_prependKey_ne
      simp only [ne_eq, FlatKey.dictKey.injEq]
      intro he
      rw [he] at h1
      rw [h1.1] at hk1
      exact Bool.false_ne_true hk1

theorem agreeT_flattenT {α : Type} :
    ∀ (ts : TupleItems α) (i : ℕ), AgreeT (flattenT i ts) i ts
  | .nil, _ => trivial
  | .cons c rest, i => by
    refine ⟨?_, ?_⟩
    · rw [flattenT, subMap_append, subMap_map_prependKey_same,
        subMap_flattenT_lt rest (i + 1) i (by omega), List.append_nil]
    · rw [flattenT]
      refine agreeT_append rest (i + 1) _ _ ?_ (agreeT_flattenT rest (i + 1))
      intro j hj
      apply subMap_map_prependKey_ne
      simp only [ne_eq, FlatKey.tupleIdx.injEq]
      omega

mutual

theorem unflatten_flatten {α : Type} :
    ∀ (c : DataOp α), wf c = true → unflatten (flatten c) (template c) = some c
  | .leaf v, _ => by simp [flatten, template, unflatten, lookupPath]
  | .dict es, h => by
    have h1 : dupFree (keysD es) = true ∧ wfD es = true := by simpa [wf] using h
    rw [flatten, template, unflatten,
      unflattenD_agree es h1.2 (flattenD es) (agreeD_flattenD es h1.1)]
    rfl
  | .tup ts, h => by
    have h1 : wfT ts = true := by simpa [wf] using h
    rw [flatten, template, unflatten,
      unflattenT_agree ts h1 (flattenT 0 ts) 0 (agreeT_flattenT ts 0)]
    rfl

theorem unflattenD_agree {α : Type} :
    ∀ (es : DictEntries α), wfD es = true → ∀ (m : List (FlatPath × α)),
      AgreeD m es → unflattenD m (templateD es) = some es
  | .nil, _, _, _ => rfl
  | .cons k c rest, h, m, hm => by
    have h1 : wf c = true ∧ wfD rest = true := by simpa [wfD] using h
    rw [templateD, unflattenD, hm.1, unflatten_flatten c h1.1,
      unflattenD_agree rest h1.2 m hm.2]

theorem unflattenT_agree {α : Type} :
    ∀ (ts : TupleItems α), wfT ts = true → ∀ (m : List (FlatPath × α)) (i : ℕ),
      AgreeT m i ts → unflattenT m i (templateT ts) = some ts
  | .nil, _, _, _, _ => rfl
  | .cons c rest, h, m, i, hm => by
    have h1 : wf c = true ∧ wfT rest = true := by simpa [wfT] using h
    rw [templateT, unflattenT, hm.1, unflatten_flatten c h1.1,
      unflattenT_agree rest h1.2 m (i + 1) hm.2]

end

mutual

theorem flatten_keys {α : Type} :
    ∀ (c : DataOp α), (flatten c).map Prod.fst = leafPaths c
  | .leaf _ => rfl
  | .dict es => by rw [flatten, leafPaths]; exact flattenD_keys es
  | .tup ts => by rw [flatten, leafPaths]; exact flattenT_keys ts 0

theorem flattenD_keys {α : Type} :
    ∀ (es : DictEntries α), (flattenD es).map Prod.fst = leafPathsD es
  | .nil => rfl
  | .cons k c rest => by
    rw [flattenD, leafPathsD, List.map_append, ← flattenD_keys rest, ← flatten_keys c,
      List.map_map, List.map_map]
    rfl

theorem flattenT_keys {α : Type} :
    ∀ (ts : TupleItems α) (i : ℕ), (flattenT i ts).map Prod.fst = leafPathsT i ts
  | .nil, _ => rfl
  | .cons c rest, i => by
    rw [flattenT, leafPathsT, List.map_append, ← flattenT_keys rest (i + 1), ← flatten_keys c,
      List.map_map, List.map_map]
    rfl

end

/-! ## Claim theorems -/

/-- C1: in both distribution adapters, every parameter value produced by the
clamping and log/exp stabilization step is strictly positive and finite for
every finite input (reals model finite floats; finiteness is witnessed by
an explicit upper bound): the beta adapter's stabilized `alpha`/`beta`
values lie in `(0, log (1/SMALL_NUMBER + 1) + 1]`, and the categorical
adapter's clamped probabilities lie in `(0, 1]`. -/
theorem claim_C1_stabilized_parameters_positive_and_bounded :
    (∀ (m : ℕ) (x : Fin (m + m) → ℝ) (i : Fin m),
      (0 < (betaGraphFn x).1.1 i ∧ (betaGraphFn x).1.1 i ≤ Real.log (1 / SMALL_NUMBER + 1) + 1) ∧
      (0 < (betaGraphFn x).1.2 i ∧ (betaGraphFn x).1.2 i ≤ Real.log (1 / SMALL_NUMBER + 1) + 1)) ∧
    (∀ (n : ℕ) (y : Fin n → ℝ) (i : Fin n),
      0 < categoricalProbs y i ∧ categoricalProbs y i ≤ 1) := by
  constructor
  · intro m x i
    exact ⟨⟨lt_trans zero_lt_one (one_lt_betaStabilize _), betaStabilize_le _⟩,
      ⟨lt_trans zero_lt_one (one_lt_betaStabilize _), betaStabilize_le _⟩⟩
  · intro n y i
    exact ⟨lt_of_lt_of_le SMALL_NUMBER_pos (categoricalProbs_lower y i),
      categoricalProbs_le_one y i⟩

/-- C4: the probability handed to the logarithm in the categorical adapter
is clamped up to at least `SMALL_NUMBER` (a strictly positive constant), and
the argument of the logarithm in the beta adapter is `exp (clipped) + 1 > 0`;
hence for every finite input both log arguments are strictly positive and
the log-of-zero branch is unreachable. -/
theorem claim_C4_log_arguments_clamped_positive :
    0 < SMALL_NUMBER ∧
    (∀ (n : ℕ) (y : Fin n → ℝ) (i : Fin n),
      SMALL_NUMBER ≤ categoricalProbs y i ∧ 0 < categoricalProbs y i) ∧
    (∀ x : ℝ, 0 < betaLogArgument x) := by
  refine ⟨SMALL_NUMBER_pos, fun n y i => ⟨categoricalProbs_lower y i, ?_⟩, betaLogArgument_pos⟩
  exact lt_of_lt_of_le SMALL_NUMBER_pos (categoricalProbs_lower y i)

/-- C9: every stabilized `alpha`/`beta` value of the beta adapter is
strictly greater than 1 and at most `log (1/SMALL_NUMBER + 1) + 1`, because
the raw outputs are clipped to `[log SMALL_NUMBER, -log SMALL_NUMBER]` and
then mapped through `x ↦ log (exp x + 1) + 1`. -/
theorem claim_C9_beta_parameter_bounds :
    ∀ (m : ℕ) (x : Fin (m + m) → ℝ) (i : Fin m),
      (1 < (betaGraphFn x).1.1 i ∧ (betaGraphFn x).1.1 i ≤ Real.log (1 / SMALL_NUMBER + 1) + 1) ∧
      (1 < (betaGraphFn x).1.2 i ∧ (betaGraphFn x).1.2 i ≤ Real.log (1 / SMALL_NUMBER + 1) + 1) :=
  fun _ _ _ =>
    ⟨⟨one_lt_betaStabilize _, betaStabilize_le _⟩,
      ⟨one_lt_betaStabilize _, betaStabilize_le _⟩⟩

/-- C6: each adapter's parameter-extraction graph function returns exactly a
3-tuple: the beta adapter returns `(parameters, None, None)` where the
parameters are the stabilized `(alpha, beta)` pair, and the categorical
adapter returns `(raw logits, probs, log_probs)` with the two derived
values present. -/
theorem claim_C6_graph_fn_triples :
    (∀ (m : ℕ) (x : Fin (m + m) → ℝ),
      betaGraphFn x
        = ((fun i => betaStabilize (x (Fin.castAdd m i)),
            fun i => betaStabilize (x (Fin.natAdd m i))), none, none)) ∧
    (∀ (n : ℕ) (y : Fin n → ℝ),
      categoricalGraphFn y
        = (y, some (categoricalProbs y), some (fun i => Real.log (categoricalProbs y i)))) :=
  ⟨fun _ _ => rfl, fun _ _ => rfl⟩

/-- C5: for every action space the pair returned by `get_units_and_shape`
is internally consistent — the units equal the product of the returned
shape's dimensions, for both adapters; in particular the beta adapter
returns `units = 2 * flat_dim` with shape `(2,)` for a scalar action space
and the action-space shape with doubled last dimension otherwise. -/
theorem claim_C5_units_match_shape :
    ∀ (s : Space),
      (beta_get_units_and_shape s).1 = ((beta_get_units_and_shape s).2).prod ∧
      (categorical_get_units_and_shape s).1 = ((categorical_get_units_and_shape s).2).prod ∧
      (beta_get_units_and_shape s).1 = 2 * s.flatDim ∧
      (∀ k : ℕ, (beta_get_units_and_shape ⟨[], k⟩).2 = [2]) ∧
      (∀ (a : ℕ) (rest : List ℕ) (k : ℕ),
        (beta_get_units_and_shape ⟨a :: rest, k⟩).2
          = (a :: rest).dropLast ++ [(a :: rest).getLast (List.cons_ne_nil a rest) * 2]) := by
  intro s
  refine ⟨?_, ?_, rfl, fun _ => rfl, fun _ _ _ => rfl⟩
  · obtain ⟨shape, k⟩ := s
    cases shape with
    | nil => rfl
    | cons a rest =>
      show 2 * (a :: rest).prod
        = ((a :: rest).dropLast ++ [(a :: rest).getLast (List.cons_ne_nil a rest) * 2]).prod
      rw [prod_dropLast_getLast_mul_two]
  · show s.shape.prod * s.numCategories = (s.shape ++ [s.numCategories]).prod
    rw [List.prod_append, List.prod_singleton]

/-- C2: every chain of two 1-to-1 components each adding `1.0`, built and
invoked through the engine's entry point, maps `1.1` to `3.1` and `-5.1`
to `-3.1`. -/
theorem claim_C2_two_chain_composition :
    ∀ (c1 c2 : Comp1), c1.fn = (fun x => x + 1) → c2.fn = (fun x => x + 1) →
      ∃ e, (build (mkRoot (chainGraph c1 c2))).entryPoint = some e ∧
        e (fun _ => 1.1) = 3.1 ∧ e (fun _ => -5.1) = -3.1 := by
  intro c1 c2 h1 h2
  refine ⟨evalCallGraph (chainGraph c1 c2), rfl, ?_, ?_⟩ <;>
    simp [chainGraph, evalCallGraph, h1, h2] <;> norm_num

/-- Witness for C2 at the concrete dummy components. -/
theorem claim_C2_two_chain_composition_witness :
    (dummy1To1 "comp1").fn = (fun x => x + 1) ∧
    (dummy1To1 "comp2").fn = (fun x => x + 1) ∧
    (∃ e, (build (mkRoot (chainGraph (dummy1To1 "comp1") (dummy1To1 "comp2")))).entryPoint
        = some e ∧ e (fun _ => 1.1) = 3.1 ∧ e (fun _ => -5.1) = -3.1) :=
  ⟨rfl, rfl, claim_C2_two_chain_composition (dummy1To1 "comp1") (dummy1To1 "comp2") rfl rfl⟩

/-- C3: the diamond composition (A on each input, then B and C, then D
summing both branches), built through the engine, maps the input pair
`(1.1, 0.5)` to `5.6`. -/
theorem claim_C3_diamond_composition :
    ∀ (a b c : Comp1) (d : Comp2),
      a.fn = (fun x => x + 1) → b.fn = (fun x => x + 1) → c.fn = (fun x => x + 1) →
      d.fn = (fun u v => u + v) →
      ∃ e, (build (mkRoot (diamondGraph a b c d))).entryPoint = some e ∧
        e (twoInputs 1.1 0.5) = 5.6 := by
  intro a b c d h1 h2 h3 h4
  refine ⟨evalCallGraph (diamondGraph a b c d), rfl, ?_⟩
  simp [diamondGraph, evalCallGraph, twoInputs, h1, h2, h3, h4]
  norm_num

/-- Witness for C3 at the concrete dummy components. -/
theorem claim_C3_diamond_composition_witness :
    (dummy1To1 "A").fn = (fun x => x + 1) ∧
    (dummy2To1 "D").fn = (fun u v => u + v) ∧
    (∃ e, (build (mkRoot (diamondGraph (dummy1To1 "A") (dummy1To1 "B") (dummy1To1 "C")
        (dummy2To1 "D")))).entryPoint = some e ∧ e (twoInputs 1.1 0.5) = 5.6) :=
  ⟨rfl, rfl, claim_C3_diamond_composition (dummy1To1 "A") (dummy1To1 "B") (dummy1To1 "C")
    (dummy2To1 "D") rfl rfl rfl rfl⟩

/-- C8: building an already-`BUILT` component is a no-op — it keeps the
entry point, creates no additional backend operations, stays `BUILT`, and
the entry point produces identical results for identical inputs. -/
theorem claim_C8_idempotent_build :
    ∀ (r : RootComponent), r.built = true →
      (build r).entryPoint = r.entryPoint ∧
      (build r).opCount = r.opCount ∧
      (build r).built = true ∧
      ∀ (inputs : ℕ → ℚ),
        ((build r).entryPoint).map (fun e => e inputs) = (r.entryPoint).map (fun e => e inputs) := by
  intro r h
  simp [build, h]

/-- Witness for C8 at a concretely built chain component. -/
theorem claim_C8_idempotent_build_witness :
    (build (mkRoot (chainGraph (dummy1To1 "comp1") (dummy1To1 "comp2")))).built = true ∧
    ((build (build (mkRoot (chainGraph (dummy1To1 "comp1") (dummy1To1 "comp2"))))).entryPoint
        = (build (mkRoot (chainGraph (dummy1To1 "comp1") (dummy1To1 "comp2")))).entryPoint ∧
      (build (build (mkRoot (chainGraph (dummy1To1 "comp1") (dummy1To1 "comp2"))))).opCount
        = (build (mkRoot (chainGraph (dummy1To1 "comp1") (dummy1To1 "comp2")))).opCount ∧
      (build (build (mkRoot (chainGraph (dummy1To1 "comp1") (dummy1To1 "comp2"))))).built = true ∧
      ∀ (inputs : ℕ → ℚ),
        ((build (build (mkRoot (chainGraph (dummy1To1 "comp1")
            (dummy1To1 "comp2"))))).entryPoint).map (fun e => e inputs)
          = ((build (mkRoot (chainGraph (dummy1To1 "comp1")
              (dummy1To1 "comp2")))).entryPoint).map (fun e => e inputs)) :=
  ⟨rfl, claim_C8_idempotent_build
    (build (mkRoot (chainGraph (dummy1To1 "comp1") (dummy1To1 "comp2")))) rfl⟩

/-- C7: for every well-formed structured container the flatten/unflatten
round trip is the identity, and the flatten keys are the stable strings
derived from the container's tree paths. -/
theorem claim_C7_flatten_unflatten_roundtrip {α : Type} :
    ∀ (c : DataOp α), wf c = true →
      unflatten (flatten c) (template c) = some c ∧
      (flatten c).map Prod.fst = leafPaths c ∧
      flattenStr c = (flatten c).map (fun e => (renderPath e.1, e.2)) :=
  fun c h => ⟨unflatten_flatten c h, flatten_keys c, rfl⟩

/-- Witness for C7 at a concrete nested container. -/
theorem claim_C7_flatten_unflatten_roundtrip_witness :
    wf sampleContainer = true ∧
    (unflatten (flatten sampleContainer) (template sampleContainer) = some sampleContainer ∧
      (flatten sampleContainer).map Prod.fst = leafPaths sampleContainer ∧
      flattenStr sampleContainer
        = (flatten sampleContainer).map (fun e => (renderPath e.1, e.2))) :=
  ⟨rfl, claim_C7_flatten_unflatten_roundtrip sampleContainer rfl⟩

/-- C10: every constructed `Layer` registers, at construction time, exactly
one API method named `"apply"` backed by `_graph_fn_apply` with
`flatten_ops` and `split_ops` enabled, and the base-class
`_graph_fn_apply` returns its inputs unchanged (the identity). -/
theorem claim_C10_layer_apply_registration :
    ∀ (scope : String),
      (Layer.init scope).apiMethods
        = [{ name := "apply", body := Layer.graph_fn_apply,
             flatten_ops := true, split_ops := true }] ∧
      (∀ (inputs : List ℚ), Layer.graph_fn_apply inputs = inputs) :=
  fun _ => ⟨rfl, fun _ => rfl⟩

end RLGraph
